import Mathlib

/-!
Shallow embedding of the go-requiring validation library.

Two Go packages are embedded:
* package `requiring` (`validator.go`): the rule registry (`RuleSet`), the
  per-field `rule` aggregation, offset-based field resolution, and the
  `notEmptyValidator`;
* package `validator` (the length-validator file): `MinLength`, `MaxLength`
  and `Length` validators together with their violation errors and printers.

Go strings are modelled by their sequence of Unicode code points (the result
of the `[]rune` conversion of a valid UTF-8 Go string); the byte length of
the underlying storage is recovered by `byteLen`.  Go `panic` is modelled by
`Option.none` in an outer `Option` layer; Go `nil` errors are `Option.none`
in the error position.
-/

/-- A Go string, as its sequence of Unicode code points. -/
abbrev GoStr := List Char

/-- Number of bytes taken by one code point in the UTF-8 encoding. -/
def utf8Len (c : Char) : Nat :=
  if c.toNat < 0x80 then 1
  else if c.toNat < 0x800 then 2
  else if c.toNat < 0x10000 then 3
  else 4

/-- Go `len(s)` on the raw string: its length in storage bytes. -/
def byteLen (s : GoStr) : Nat := (s.map utf8Len).sum

namespace Requiring

/-- Dynamic (`any`) values reaching the registry and its validators:
string fields and (possibly nested) struct records. -/
inductive Val where
  | str (s : GoStr)
  | record (fields : List Val)

/-- The single-quote character, written by `fmt.Errorf` around a rule name. -/
def quoteStr : String := String.singleton (Char.ofNat 39)

/-- Errors of the package: `RangeMinViolationError` leaves, arbitrary
validator-produced errors (`custom`), the wrapping added by
`fmt.Errorf` with a quoted rule name, and `errors.Join` aggregates. -/
inductive GoErr where
  | rangeMin (Min Max : Int) (Value : GoStr)
  | custom (msg : String)
  | wrapped (name : String) (e : GoErr)
  | joined (es : List GoErr)

/-- `errors.Join` applied to the (already non-nil) collected errors:
nil when the list is empty, otherwise one aggregate error holding it. -/
def errorsJoin (es : List GoErr) : Option GoErr :=
  if es.isEmpty then none else some (.joined es)

/-- The member errors of an aggregate (what `errors.Join`'s `Unwrap`
exposes); a non-aggregate error is its own single member. -/
def memberErrors : GoErr → List GoErr
  | .joined es => es
  | .rangeMin mn mx v => [.rangeMin mn mx v]
  | .custom m => [.custom m]
  | .wrapped n e => [.wrapped n e]

/-- Members of an optional error: Go `nil` has no members. -/
def memberList : Option GoErr → List GoErr
  | none => []
  | some e => memberErrors e

/-- The text `fmt.Errorf` with verb sequence quoted-name/space/wrapped
produces around a member message. -/
def wrapName (name msg : String) : String :=
  quoteStr ++ name ++ quoteStr ++ " " ++ msg

/-- Rendered message of every leaf violation of an error, with each level of
`fmt.Errorf` wrapping applied.  The `RangeMinViolationError` leaf renders
through `rangeMinPrinter`, which writes the fixed text "requires". -/
def leafMsgs : GoErr → List String
  | .rangeMin _ _ _ => ["requires"]
  | .custom m => [m]
  | .wrapped n e => (leafMsgs e).map (fun m => wrapName n m)
  | .joined [] => []
  | .joined (e :: es) => leafMsgs e ++ leafMsgs (.joined es)

/-- The `Validator` interface: validate a value and return an error or nil.
Executions that would panic inside a caller-supplied validator are outside
the model, so a validator is a total function into an optional error. -/
abbrev Validator := Val → Option GoErr

/-- A registered `rule`: name, ordered validators, and the resolved field
offset and index path. -/
structure rule where
  Name : String
  Validators : List Validator
  Offset : Nat
  Index : List Nat

/-- The loop of `rule.Validate`: the collected wrapped errors of the failing
validators, in order; passing validators contribute nothing. -/
def errsOf (name : String) (v : Val) : List Validator → List GoErr
  | [] => []
  | p :: ps =>
    match p v with
    | none => errsOf name v ps
    | some e => .wrapped name e :: errsOf name v ps

/-- `rule.Validate`: run every validator against the value, wrap each failure
with the quoted rule name, and join the results. -/
def rule.Validate (r : rule) (v : Val) : Option GoErr :=
  errorsJoin (errsOf r.Name v r.Validators)

/-- A visible struct field of the template record type, restricted to the two
components read by the code (`reflect.StructField.Offset` and `.Index`). -/
structure StructField where
  Offset : Nat
  Index : List Nat
deriving DecidableEq

/-- `lookupStructField`: the first visible field whose own offset equals the
given offset exactly; `none` models the registration-time panic when no
field offset matches. -/
def lookupStructField (fields : List StructField) (off : Nat) : Option StructField :=
  fields.find? (fun f => f.Offset == off)

/-- `RuleSet`: the visible fields of the retained template record type
(`base`) and the name-keyed rule map, modelled as an association list in
which names are unique. -/
structure RuleSet where
  fields : List StructField
  rules : List rule

/-- The Go map assignment in `Add`: replace the rule stored under the same
name, or append a new entry. -/
def insertRule (rs : List rule) (r : rule) : List rule :=
  match rs with
  | [] => [r]
  | x :: xs => if x.Name == r.Name then r :: xs else x :: insertRule xs r

/-- `RuleSet.Add`, taking the byte offset already computed by `offsetOf` from
the supplied field pointer; `none` models the panic raised by
`lookupStructField` when the offset matches no visible field. -/
def RuleSet.Add (s : RuleSet) (off : Nat) (name : String) (vs : List Validator) :
    Option RuleSet :=
  match lookupStructField s.fields off with
  | none => none
  | some f =>
    some { s with
      rules := insertRule s.rules
        { Name := name, Validators := vs, Offset := f.Offset, Index := f.Index } }

/-- Lookup of the rule stored under a name. -/
def findRule (rs : List rule) (name : String) : Option rule :=
  rs.find? (fun r => r.Name == name)

/-- `reflect.Value.FieldByIndex`: follow an index path into a record value;
`none` models the reflect panic on an invalid path. -/
def fieldByIndex : Val → List Nat → Option Val
  | v, [] => some v
  | .record fs, i :: is =>
    match fs.get? i with
    | none => none
    | some fv => fieldByIndex fv is
  | .str _, _ :: _ => none

/-- The loop of `RuleSet.Validate`: for each rule in storage order, resolve
its field inside the record and collect the rule's non-nil aggregate;
`none` models the reflect panic when a field path fails to resolve. -/
def validateRules (v : Val) : List rule → Option (List GoErr)
  | [] => some []
  | r :: rs =>
    match fieldByIndex v r.Index with
    | none => none
    | some fv =>
      match validateRules v rs with
      | none => none
      | some errs =>
        match r.Validate fv with
        | none => some errs
        | some e => some (e :: errs)

/-- `RuleSet.Validate`: evaluate every rule and join all per-rule errors. -/
def RuleSet.Validate (s : RuleSet) (v : Val) : Option (Option GoErr) :=
  (validateRules v s.rules).map errorsJoin

/-- `notEmptyValidator` (carrying its settable printer; `Validate` never
reads it). -/
structure notEmptyValidator where
  p : Option (GoErr → String)

/-- `notEmptyValidator.Validate`: assert the value is a string (the outer
`none` models the type-assertion panic on other values) and fail with a
`RangeMinViolationError` with `Min` 1 exactly on the empty string; the
`Max` field is left at its zero value, documented in the source as the
"unlimited" sentinel. -/
def notEmptyValidator.Validate (_f : notEmptyValidator) (v : Val) :
    Option (Option GoErr) :=
  match v with
  | .str s => some (if s.isEmpty then some (.rangeMin 1 0 s) else none)
  | .record _ => none

/-- The exported `NotEmpty` validator value. -/
def NotEmpty : notEmptyValidator := { p := none }

end Requiring

namespace Validator

/-!
Package `validator`: the length-validator family, instantiated at
`T = string` (`GoStr`).  Go pointer identity matters here (copy-on-configure
of WithPrinter, and the `rule` back-reference stored inside each violation),
so validator instances live in an explicit heap — a list of cells — and a
pointer is an index into it.  `Validate` additionally receives the receiver's
own heap reference `self`, which the Go code stores as the `rule` field of
the violation it creates.
-/

/-- `MinLengthViolationError[T]`; `rule` is the heap reference of the
producing validator instance. -/
structure MinLengthViolationError where
  Value : GoStr
  Min : Int
  rule : Nat

/-- `MinLengthValidator[T]`: the threshold and the optional custom printer.
A printer is modelled by the text it writes for a given violation. -/
structure MinLengthValidator where
  min : Int
  p : Option (MinLengthViolationError → String)

/-- The factory `MinLength(n)`: zero-valued validator with the threshold set. -/
def MinLength (n : Int) : MinLengthValidator := { min := n, p := none }

/-- A heap of `MinLengthValidator` instances. -/
abbrev MinHeap := List MinLengthValidator

/-- `(*MinLengthValidator).WithPrinter`: copy the pointee at `i`, set the
printer on the copy, allocate the copy as a fresh cell and return its
reference. -/
def MinLengthValidator.WithPrinter (h : MinHeap) (i : Nat)
    (pr : MinLengthViolationError → String) : MinHeap × Nat :=
  (h ++ [{ h.getD i (MinLength 0) with p := some pr }], h.length)

/-- `(*MinLengthValidator).WithPrinterFunc`: like `WithPrinter`, wrapping a
formatting function that only receives the violation's `Min`. -/
def MinLengthValidator.WithPrinterFunc (h : MinHeap) (i : Nat)
    (fn : Int → String) : MinHeap × Nat :=
  (h ++ [{ h.getD i (MinLength 0) with p := some (fun e => fn e.Min) }], h.length)

/-- `(*MinLengthValidator).Validate` on a string value (the claims apply it
to strings, so the type-assertion step is the identity): fail when the
code-point count is below the threshold. -/
def MinLengthValidator.Validate (r : MinLengthValidator) (self : Nat)
    (s : GoStr) : Option MinLengthViolationError :=
  if (s.length : Int) < r.min then
    some { Value := s, Min := r.min, rule := self }
  else none

/-- The built-in default printer `minLengthViolationPrinter.Print`. -/
def minLengthViolationPrinter.Print (e : MinLengthViolationError) : String :=
  "the length must be no less than " ++ toString e.Min

/-- `MinLengthViolationError.Error`: render with the producing validator's
printer, falling back to the built-in default when none is set. -/
def MinLengthViolationError.Error (e : MinLengthViolationError) (h : MinHeap) : String :=
  match (h.getD e.rule (MinLength 0)).p with
  | none => minLengthViolationPrinter.Print e
  | some pr => pr e

/-- `MaxLengthViolationError[T]`. -/
structure MaxLengthViolationError where
  Value : GoStr
  Max : Int
  rule : Nat

/-- `MaxLengthValidator[T]`. -/
structure MaxLengthValidator where
  max : Int
  p : Option (MaxLengthViolationError → String)

/-- The factory `MaxLength(n)`. -/
def MaxLength (n : Int) : MaxLengthValidator := { max := n, p := none }

/-- A heap of `MaxLengthValidator` instances. -/
abbrev MaxHeap := List MaxLengthValidator

/-- `(*MaxLengthValidator).WithPrinter`. -/
def MaxLengthValidator.WithPrinter (h : MaxHeap) (i : Nat)
    (pr : MaxLengthViolationError → String) : MaxHeap × Nat :=
  (h ++ [{ h.getD i (MaxLength 0) with p := some pr }], h.length)

/-- `(*MaxLengthValidator).WithPrinterFunc`. -/
def MaxLengthValidator.WithPrinterFunc (h : MaxHeap) (i : Nat)
    (fn : Int → String) : MaxHeap × Nat :=
  (h ++ [{ h.getD i (MaxLength 0) with p := some (fun e => fn e.Max) }], h.length)

/-- `(*MaxLengthValidator).Validate`: fail when the code-point count exceeds
the threshold. -/
def MaxLengthValidator.Validate (r : MaxLengthValidator) (self : Nat)
    (s : GoStr) : Option MaxLengthViolationError :=
  if r.max < (s.length : Int) then
    some { Value := s, Max := r.max, rule := self }
  else none

/-- The built-in default printer `maxLengthViolationPrinter.Print`. -/
def maxLengthViolationPrinter.Print (e : MaxLengthViolationError) : String :=
  "the length must be no greater than " ++ toString e.Max

/-- `MaxLengthViolationError.Error`. -/
def MaxLengthViolationError.Error (e : MaxLengthViolationError) (h : MaxHeap) : String :=
  match (h.getD e.rule (MaxLength 0)).p with
  | none => maxLengthViolationPrinter.Print e
  | some pr => pr e

/-- `LengthViolationError[T]`. -/
structure LengthViolationError where
  Value : GoStr
  Min : Int
  Max : Int
  rule : Nat

/-- `LengthValidator[T]`. -/
structure LengthValidator where
  min : Int
  max : Int
  p : Option (LengthViolationError → String)

/-- The factory `Length(min, max)`. -/
def Length (mn mx : Int) : LengthValidator := { min := mn, max := mx, p := none }

/-- A heap of `LengthValidator` instances. -/
abbrev LenHeap := List LengthValidator

/-- `(*LengthValidator).WithPrinter`. -/
def LengthValidator.WithPrinter (h : LenHeap) (i : Nat)
    (pr : LengthViolationError → String) : LenHeap × Nat :=
  (h ++ [{ h.getD i (Length 0 0) with p := some pr }], h.length)

/-- `(*LengthValidator).WithPrinterFunc`. -/
def LengthValidator.WithPrinterFunc (h : LenHeap) (i : Nat)
    (fn : Int → Int → String) : LenHeap × Nat :=
  (h ++ [{ h.getD i (Length 0 0) with p := some (fun e => fn e.Min e.Max) }], h.length)

/-- `(*LengthValidator).Validate`: fail when the code-point count is below
`min` or above `max`. -/
def LengthValidator.Validate (r : LengthValidator) (self : Nat)
    (s : GoStr) : Option LengthViolationError :=
  if (s.length : Int) < r.min ∨ r.max < (s.length : Int) then
    some { Value := s, Min := r.min, Max := r.max, rule := self }
  else none

/-- The built-in default printer `lengthViolationPrinter.Print`. -/
def lengthViolationPrinter.Print (e : LengthViolationError) : String :=
  "the length must be in range(" ++ toString e.Min ++ " ... " ++ toString e.Max ++ ")"

/-- `LengthViolationError.Error`. -/
def LengthViolationError.Error (e : LengthViolationError) (h : LenHeap) : String :=
  match (h.getD e.rule (Length 0 0)).p with
  | none => lengthViolationPrinter.Print e
  | some pr => pr e

end Validator

namespace Requiring

theorem errsOf_length (name : String) (v : Val) (ps : List Validator) :
    (errsOf name v ps).length = (ps.filter (fun p => (p v).isSome)).length := by
  induction ps with
  | nil => rfl
  | cons p ps ih =>
    cases hp : p v with
    | none => simp [errsOf, hp, List.filter_cons, ih]
    | some e => simp [errsOf, hp, List.filter_cons, ih]

theorem errsOf_nil_of_pass (name : String) (v : Val) (ps : List Validator)
    (h : ∀ p ∈ ps, p v = none) : errsOf name v ps = [] := by
  induction ps with
  | nil => rfl
  | cons p ps ih =>
    have hp : p v = none := h p (List.mem_cons_self p ps)
    simp only [errsOf, hp]
    exact ih (fun q hq => h q (List.mem_cons_of_mem p hq))

theorem errsOf_append (name : String) (v : Val) (a b : List Validator) :
    errsOf name v (a ++ b) = errsOf name v a ++ errsOf name v b := by
  induction a with
  | nil => rfl
  | cons p ps ih =>
    cases hp : p v with
    | none => simp [errsOf, hp, ih]
    | some e => simp [errsOf, hp, ih]

theorem rule_validate_none_of_pass (r : rule) (v : Val)
    (h : ∀ p ∈ r.Validators, p v = none) : r.Validate v = none := by
  simp [rule.Validate, errsOf_nil_of_pass r.Name v r.Validators h, errorsJoin]

theorem memberList_errorsJoin (L : List GoErr) : memberList (errorsJoin L) = L := by
  cases L with
  | nil => rfl
  | cons e es => simp [errorsJoin, memberList, memberErrors]

theorem rule_member_errsOf (r : rule) (v : Val) :
    memberList (r.Validate v) = errsOf r.Name v r.Validators := by
  simp only [rule.Validate]
  exact memberList_errorsJoin _

theorem validateRules_count (v : Val) (rs : List rule)
    (h : ∀ r ∈ rs, (fieldByIndex v r.Index).isSome) :
    ∃ L, validateRules v rs = some L ∧
      ((L.map memberErrors).flatten).length
        = (rs.map (fun r => (r.Validators.filter
            (fun p => (p ((fieldByIndex v r.Index).getD (.record []))).isSome)).length)).sum := by
  induction rs with
  | nil => exact ⟨[], rfl, rfl⟩
  | cons r rs ih =>
    obtain ⟨fv, hfv⟩ := Option.isSome_iff_exists.mp (h r (List.mem_cons_self r rs))
    obtain ⟨L, hL, hsum⟩ := ih (fun q hq => h q (List.mem_cons_of_mem r hq))
    have hmem : (memberList (r.Validate fv)).length
        = (r.Validators.filter (fun p => (p fv).isSome)).length := by
      rw [rule_member_errsOf]
      exact errsOf_length r.Name fv r.Validators
    cases hval : r.Validate fv with
    | none =>
      refine ⟨L, ?_, ?_⟩
      · simp [validateRules, hfv, hL, hval]
      · have h0 : (r.Validators.filter (fun p => (p fv).isSome)).length = 0 := by
          rw [← hmem, hval]
          rfl
        simp only [List.map_cons, List.sum_cons, hfv, Option.getD_some, h0, Nat.zero_add]
        exact hsum
    | some e =>
      refine ⟨e :: L, ?_, ?_⟩
      · simp [validateRules, hfv, hL, hval]
      · have h1 : (memberErrors e).length
            = (r.Validators.filter (fun p => (p fv).isSome)).length := by
          rw [← hmem, hval]
          rfl
        simp only [List.map_cons, List.sum_cons, List.flatten_cons, List.length_append,
          hfv, Option.getD_some, h1]
        rw [hsum]

/-- Claim C1: `RuleSet.Validate` evaluates every registered rule and, within
each rule, every validator against the rule's field value; the aggregated
result holds one member violation per failing (rule, validator) pair, so no
failure short-circuits the others. -/
theorem validate_counts_every_failing_pair (s : RuleSet) (v : Val)
    (h : ∀ r ∈ s.rules, (fieldByIndex v r.Index).isSome) :
    ∃ res, s.Validate v = some res ∧
      (((memberList res).map memberErrors).flatten).length
        = (s.rules.map (fun r => (r.Validators.filter
            (fun p => (p ((fieldByIndex v r.Index).getD (.record []))).isSome)).length)).sum := by
  obtain ⟨L, hL, hsum⟩ := validateRules_count v s.rules h
  refine ⟨errorsJoin L, ?_, ?_⟩
  · simp [RuleSet.Validate, hL]
  · rw [memberList_errorsJoin]
    exact hsum

/-- Witness for claim C1: a registry with two rules on the one field of a
record, three validators failing in total, aggregates three violations. -/
theorem validate_counts_every_failing_pair_witness :
    (∀ r ∈ (RuleSet.mk [⟨0, [0]⟩]
        [⟨"a", [fun _ => some (.custom "x"), fun _ => none], 0, [0]⟩,
         ⟨"b", [fun _ => some (.custom "y"), fun _ => some (.custom "z")], 0, [0]⟩]).rules,
      (fieldByIndex (.record [.str []]) r.Index).isSome)
    ∧ ∃ res, (RuleSet.mk [⟨0, [0]⟩]
        [⟨"a", [fun _ => some (.custom "x"), fun _ => none], 0, [0]⟩,
         ⟨"b", [fun _ => some (.custom "y"), fun _ => some (.custom "z")], 0, [0]⟩]).Validate
          (.record [.str []]) = some res ∧
      (((memberList res).map memberErrors).flatten).length
        = ((RuleSet.mk [⟨0, [0]⟩]
        [⟨"a", [fun _ => some (.custom "x"), fun _ => none], 0, [0]⟩,
         ⟨"b", [fun _ => some (.custom "y"), fun _ => some (.custom "z")], 0, [0]⟩]).rules.map
            (fun r => (r.Validators.filter
            (fun p => (p ((fieldByIndex (.record [.str []]) r.Index).getD
              (.record []))).isSome)).length)).sum := by
  have hres : ∀ r ∈ (RuleSet.mk [⟨0, [0]⟩]
        [⟨"a", [fun _ => some (.custom "x"), fun _ => none], 0, [0]⟩,
         ⟨"b", [fun _ => some (.custom "y"), fun _ => some (.custom "z")], 0, [0]⟩]).rules,
      (fieldByIndex (.record [.str []]) r.Index).isSome := by
    intro r hr
    simp only [List.mem_cons, List.not_mem_nil, or_false] at hr
    rcases hr with rfl | rfl
    · rfl
    · rfl
  exact ⟨hres, validate_counts_every_failing_pair _ _ hres⟩

theorem validateRules_nil_of_pass (v : Val) (rs : List rule)
    (h : ∀ r ∈ rs, ∃ fv, fieldByIndex v r.Index = some fv ∧
        ∀ p ∈ r.Validators, p fv = none) :
    validateRules v rs = some [] := by
  induction rs with
  | nil => rfl
  | cons r rs ih =>
    obtain ⟨fv, hfv, hpass⟩ := h r (List.mem_cons_self r rs)
    have hrest := ih (fun q hq => h q (List.mem_cons_of_mem r hq))
    have hval : r.Validate fv = none := rule_validate_none_of_pass r fv hpass
    simp [validateRules, hfv, hrest, hval]

/-- Claim C2: when every registered field satisfies every validator of every
rule, `RuleSet.Validate` returns nil, and joining an empty error list is nil
(an aggregate with zero members is no error). -/
theorem validate_success_when_all_pass (s : RuleSet) (v : Val)
    (h : ∀ r ∈ s.rules, ∃ fv, fieldByIndex v r.Index = some fv ∧
        ∀ p ∈ r.Validators, p fv = none) :
    s.Validate v = some none ∧ errorsJoin [] = none := by
  refine ⟨?_, rfl⟩
  simp [RuleSet.Validate, validateRules_nil_of_pass v s.rules h, errorsJoin]

/-- Witness for claim C2: a one-rule registry whose validator accepts the
record's field validates successfully. -/
theorem validate_success_when_all_pass_witness :
    (∀ r ∈ (RuleSet.mk [⟨0, [0]⟩] [⟨"a", [fun _ => none], 0, [0]⟩]).rules,
      ∃ fv, fieldByIndex (.record [.str ['a']]) r.Index = some fv ∧
        ∀ p ∈ r.Validators, p fv = none)
    ∧ (RuleSet.mk [⟨0, [0]⟩] [⟨"a", [fun _ => none], 0, [0]⟩]).Validate
        (.record [.str ['a']]) = some none
    ∧ errorsJoin [] = none := by
  have h : ∀ r ∈ (RuleSet.mk [⟨0, [0]⟩] [⟨"a", [fun _ => none], 0, [0]⟩]).rules,
      ∃ fv, fieldByIndex (.record [.str ['a']]) r.Index = some fv ∧
        ∀ p ∈ r.Validators, p fv = none := by
    intro r hr
    simp only [List.mem_cons, List.not_mem_nil, or_false] at hr
    subst hr
    refine ⟨.str ['a'], rfl, ?_⟩
    intro p hp
    simp only [List.mem_cons, List.not_mem_nil, or_false] at hp
    subst hp
    rfl
  have hmain := validate_success_when_all_pass _ _ h
  exact ⟨h, hmain.1, hmain.2⟩

theorem validateRules_pass_append (v : Val) (l1 rest : List rule)
    (h : ∀ r ∈ l1, ∃ fv, fieldByIndex v r.Index = some fv ∧
        ∀ p ∈ r.Validators, p fv = none) :
    validateRules v (l1 ++ rest) = validateRules v rest := by
  induction l1 with
  | nil => rfl
  | cons q l1 ih =>
    obtain ⟨fv, hfv, hpass⟩ := h q (List.mem_cons_self q l1)
    have hval : q.Validate fv = none := rule_validate_none_of_pass q fv hpass
    have hrest := ih (fun r hr => h r (List.mem_cons_of_mem q hr))
    cases hc : validateRules v rest with
    | none => simp [validateRules, hfv, hrest, hc, hval]
    | some L => simp [validateRules, hfv, hrest, hc, hval]

/-- Claim C3: when exactly one validator of exactly one rule fails (and all
other rules and validators pass), the aggregated result holds exactly one
violation, whose message carries that rule's quoted name as its leading
text. -/
theorem single_violation_carries_rule_name (s : RuleSet) (v : Val)
    (l1 l2 : List rule) (r : rule) (q1 q2 : List Validator) (p : Validator)
    (fv : Val) (m : String)
    (hs : s.rules = l1 ++ r :: l2)
    (hvs : r.Validators = q1 ++ p :: q2)
    (hfv : fieldByIndex v r.Index = some fv)
    (hfail : p fv = some (.custom m))
    (hq : ∀ q ∈ q1 ++ q2, q fv = none)
    (hl : ∀ r' ∈ l1 ++ l2, ∃ fv', fieldByIndex v r'.Index = some fv' ∧
        ∀ q ∈ r'.Validators, q fv' = none) :
    ∃ e, s.Validate v = some (some e) ∧ leafMsgs e = [wrapName r.Name m] := by
  have hq1 : ∀ q ∈ q1, q fv = none :=
    fun q hq1 => hq q (List.mem_append.mpr (Or.inl hq1))
  have hq2 : ∀ q ∈ q2, q fv = none :=
    fun q hq2 => hq q (List.mem_append.mpr (Or.inr hq2))
  have herrs : errsOf r.Name fv r.Validators = [.wrapped r.Name (.custom m)] := by
    rw [hvs, errsOf_append, errsOf_nil_of_pass r.Name fv q1 hq1]
    simp [errsOf, hfail, errsOf_nil_of_pass r.Name fv q2 hq2]
  have hrval : r.Validate fv = some (.joined [.wrapped r.Name (.custom m)]) := by
    simp [rule.Validate, herrs, errorsJoin]
  have hl2 : validateRules v l2 = some [] :=
    validateRules_nil_of_pass v l2
      (fun r' h' => hl r' (List.mem_append.mpr (Or.inr h')))
  have hl1 : validateRules v (l1 ++ r :: l2) = validateRules v (r :: l2) :=
    validateRules_pass_append v l1 (r :: l2)
      (fun r' h' => hl r' (List.mem_append.mpr (Or.inl h')))
  have hcons : validateRules v (r :: l2)
      = some [.joined [.wrapped r.Name (.custom m)]] := by
    simp [validateRules, hfv, hl2, hrval]
  refine ⟨.joined [.joined [.wrapped r.Name (.custom m)]], ?_, ?_⟩
  · simp [RuleSet.Validate, hs, hl1, hcons, errorsJoin]
  · simp [leafMsgs]

/-- Witness for claim C3: a registry with one rule and one failing validator
yields one violation whose message starts with the quoted rule name. -/
theorem single_violation_carries_rule_name_witness :
    (fieldByIndex (.record [.str []]) [0] = some (.str [])
      ∧ (fun _ : Val => some (GoErr.custom "msg")) (.str [])
          = some (.custom "msg"))
    ∧ ∃ e, (RuleSet.mk [⟨0, [0]⟩]
        [⟨"name", [fun _ => some (.custom "msg")], 0, [0]⟩]).Validate
          (.record [.str []]) = some (some e)
        ∧ leafMsgs e = [wrapName "name" "msg"] := by
  refine ⟨⟨rfl, rfl⟩, ?_⟩
  exact single_violation_carries_rule_name
    (RuleSet.mk [⟨0, [0]⟩] [⟨"name", [fun _ => some (.custom "msg")], 0, [0]⟩])
    (.record [.str []]) [] [] ⟨"name", [fun _ => some (.custom "msg")], 0, [0]⟩
    [] [] (fun _ => some (.custom "msg")) (.str []) "msg"
    rfl rfl rfl rfl
    (by intro q hq; cases hq)
    (by intro r' h'; cases h')

theorem findRule_insert (rs : List rule) (r : rule) :
    findRule (insertRule rs r) r.Name = some r := by
  induction rs with
  | nil => simp [insertRule, findRule, List.find?]
  | cons x xs ih =>
    cases hx : x.Name == r.Name with
    | true =>
      simp only [insertRule, hx, if_true]
      simp [findRule, List.find?]
    | false =>
      simp only [insertRule, hx, Bool.false_eq_true, if_false]
      simp only [findRule, List.find?, hx] at ih ⊢
      exact ih

/-- Claim C7: `RuleSet.Add` resolves the computed pointer offset by exact
match against the template's visible fields: it panics (returns `none`) iff
no visible field's own offset equals the computed offset, and on a match it
stores the rule under the matched field's index path, never binding to a
field with a different offset. -/
theorem add_resolves_exact_offset (s : RuleSet) (off : Nat) (name : String)
    (vs : List Validator) :
    (s.Add off name vs = none ↔ ∀ f ∈ s.fields, f.Offset ≠ off)
    ∧ (∀ s', s.Add off name vs = some s' →
        ∃ f, f ∈ s.fields ∧ f.Offset = off ∧
          findRule s'.rules name
            = some { Name := name, Validators := vs,
                     Offset := f.Offset, Index := f.Index }) := by
  constructor
  · have hAddNone : s.Add off name vs = none ↔
        lookupStructField s.fields off = none := by
      cases hc : lookupStructField s.fields off <;> simp [RuleSet.Add, hc]
    rw [hAddNone]
    simp [lookupStructField, List.find?_eq_none]
  · intro s' hsome
    cases hc : lookupStructField s.fields off with
    | none => simp [RuleSet.Add, hc] at hsome
    | some f =>
      have hfind : s.fields.find? (fun g => g.Offset == off) = some f := hc
      have hmem : f ∈ s.fields := List.mem_of_find?_eq_some hfind
      have hoff : f.Offset = off := by
        have := List.find?_some hfind
        simpa using this
      refine ⟨f, hmem, hoff, ?_⟩
      have hrules : s'.rules = insertRule s.rules
          { Name := name, Validators := vs, Offset := f.Offset, Index := f.Index } := by
        simp only [RuleSet.Add, hc, Option.some.injEq] at hsome
        rw [← hsome]
      rw [hrules]
      exact findRule_insert s.rules
        { Name := name, Validators := vs, Offset := f.Offset, Index := f.Index }

/-- Witness for claim C7: registering against the second visible field's
offset stores the rule under that field's index path, and an offset matching
no field makes `Add` fail. -/
theorem add_resolves_exact_offset_witness :
    ((RuleSet.mk [⟨0, [0]⟩, ⟨8, [1]⟩] []).Add 8 "f" [] =
        some (RuleSet.mk [⟨0, [0]⟩, ⟨8, [1]⟩] [⟨"f", [], 8, [1]⟩])
      ∧ ∃ f, f ∈ (RuleSet.mk [⟨0, [0]⟩, ⟨8, [1]⟩] ([] : List rule)).fields
        ∧ f.Offset = 8
        ∧ findRule (RuleSet.mk [⟨0, [0]⟩, ⟨8, [1]⟩] [⟨"f", [], 8, [1]⟩]).rules "f"
            = some { Name := "f", Validators := [], Offset := f.Offset, Index := f.Index })
    ∧ ((RuleSet.mk [⟨0, [0]⟩, ⟨8, [1]⟩] []).Add 4 "g" [] = none) := by
  refine ⟨⟨rfl, ?_⟩, ?_⟩
  · exact (add_resolves_exact_offset (RuleSet.mk [⟨0, [0]⟩, ⟨8, [1]⟩] []) 8 "f" []).2
      (RuleSet.mk [⟨0, [0]⟩, ⟨8, [1]⟩] [⟨"f", [], 8, [1]⟩]) rfl
  · refine (add_resolves_exact_offset (RuleSet.mk [⟨0, [0]⟩, ⟨8, [1]⟩] []) 4 "g" []).1.mpr ?_
    intro f hf
    simp only [List.mem_cons, List.not_mem_nil, or_false] at hf
    rcases hf with rfl | rfl <;> decide

/-- Claim C9: for the `NotEmpty` whole-record non-emptiness check, the
violation's bound parameters are `Min` 1 and `Max` 0 - the zero value that
the source documents as the "unlimited" sentinel - and no upper-bound check
is applied: every string of length at least 1 passes, however long. -/
theorem notEmpty_max_bound_unlimited :
    (∀ s : GoStr, 1 ≤ s.length → NotEmpty.Validate (.str s) = some none)
    ∧ (∀ (s : GoStr) (e : GoErr), NotEmpty.Validate (.str s) = some (some e) →
        e = .rangeMin 1 0 s) := by
  constructor
  · intro s hs
    cases s with
    | nil => simp at hs
    | cons c cs => simp [notEmptyValidator.Validate]
  · intro s e he
    cases s with
    | nil =>
      simp [notEmptyValidator.Validate] at he
      exact he.symm
    | cons c cs => simp [notEmptyValidator.Validate] at he

/-- Witness for claim C9: a three-character string passes the non-emptiness
check with no upper bound applied. -/
theorem notEmpty_max_bound_unlimited_witness :
    1 ≤ (['a', 'b', 'c'] : GoStr).length
    ∧ NotEmpty.Validate (.str ['a', 'b', 'c']) = some none := by
  exact ⟨by decide, notEmpty_max_bound_unlimited.1 ['a', 'b', 'c'] (by decide)⟩

/-- Claim C10: `NotEmpty` applied to a string value returns an error iff the
string is empty; the violation is a `RangeMinViolationError` carrying `Min`
1 and the offending empty value, and every non-empty string yields nil. -/
theorem notEmpty_fails_iff_empty (s : GoStr) :
    ((∃ e, NotEmpty.Validate (.str s) = some (some e)) ↔ s = [])
    ∧ (∀ e, NotEmpty.Validate (.str s) = some (some e) → e = .rangeMin 1 0 s)
    ∧ (s ≠ [] → NotEmpty.Validate (.str s) = some none) := by
  cases s with
  | nil =>
    refine ⟨?_, ?_, ?_⟩
    · exact ⟨fun _ => rfl, fun _ => ⟨.rangeMin 1 0 [], rfl⟩⟩
    · intro e he
      simp [notEmptyValidator.Validate] at he
      exact he.symm
    · intro hne
      exact absurd rfl hne
  | cons c cs =>
    refine ⟨?_, ?_, ?_⟩
    · constructor
      · rintro ⟨e, he⟩
        simp [notEmptyValidator.Validate] at he
      · intro h
        cases h
    · intro e he
      simp [notEmptyValidator.Validate] at he
    · intro _
      simp [notEmptyValidator.Validate]

/-- Witness for claim C10: a one-character string passes and the empty
string fails with the `Min` 1 violation carrying the empty value. -/
theorem notEmpty_fails_iff_empty_witness :
    ((['a'] : GoStr) ≠ [] ∧ NotEmpty.Validate (.str ['a']) = some none)
    ∧ (NotEmpty.Validate (.str []) = some (some (.rangeMin 1 0 []))
      ∧ ∀ e, NotEmpty.Validate (.str ([] : GoStr)) = some (some e) →
          e = .rangeMin 1 0 []) := by
  refine ⟨⟨by decide, (notEmpty_fails_iff_empty ['a']).2.2 (by decide)⟩, rfl, ?_⟩
  exact (notEmpty_fails_iff_empty []).2.1

end Requiring

namespace Validator

theorem getD_snoc_lt {α : Type} (l : List α) (x d : α) (k : Nat)
    (hk : k < l.length) : (l ++ [x]).getD k d = l.getD k d := by
  simp [List.getD_eq_getElem?_getD, List.getElem?_append_left hk]

theorem getD_snoc_self {α : Type} (l : List α) (x d : α) :
    (l ++ [x]).getD l.length d = x := by
  simp [List.getD_eq_getElem?_getD, List.getElem?_append_right (Nat.le_refl l.length)]

/-- Claim C4: `MinLength` and `MaxLength` measure a string in Unicode code
points, not storage bytes: `MinLength(n)` fails iff the code-point count is
below `n`, `MaxLength(n)` fails iff it exceeds `n`, and a string of three
multi-byte characters (at least six storage bytes) satisfies `MinLength(3)`
and fails `MaxLength(2)`. -/
theorem length_measured_in_code_points (n : Int) (s : GoStr) (i : Nat) :
    (((MinLength n).Validate i s).isSome ↔ (s.length : Int) < n)
    ∧ (((MaxLength n).Validate i s).isSome ↔ n < (s.length : Int))
    ∧ (s.length = 3 → (∀ c ∈ s, 2 ≤ utf8Len c) →
        6 ≤ byteLen s
        ∧ (MinLength 3).Validate i s = none
        ∧ ((MaxLength 2).Validate i s).isSome) := by
  refine ⟨?_, ?_, ?_⟩
  · by_cases hc : (s.length : Int) < n
    · simp [MinLengthValidator.Validate, MinLength, hc]
    · simp [MinLengthValidator.Validate, MinLength, hc]
  · by_cases hc : n < (s.length : Int)
    · simp [MaxLengthValidator.Validate, MaxLength, hc]
    · simp [MaxLengthValidator.Validate, MaxLength, hc]
  · intro h3 hmb
    refine ⟨?_, ?_, ?_⟩
    · obtain ⟨a, b, c, rfl⟩ := List.length_eq_three.mp h3
      have ha := hmb a (by simp)
      have hb := hmb b (by simp)
      have hc := hmb c (by simp)
      simp only [byteLen, List.map_cons, List.map_nil, List.sum_cons, List.sum_nil]
      omega
    · norm_num [MinLengthValidator.Validate, MinLength, h3]
    · norm_num [MaxLengthValidator.Validate, MaxLength, h3]

/-- Witness for claim C4: the three-character all-multi-byte Greek string has
six storage bytes, satisfies `MinLength(3)` and fails `MaxLength(2)`. -/
theorem length_measured_in_code_points_witness :
    (['α', 'β', 'γ'] : GoStr).length = 3
    ∧ (∀ c ∈ (['α', 'β', 'γ'] : GoStr), 2 ≤ utf8Len c)
    ∧ (6 ≤ byteLen ['α', 'β', 'γ']
      ∧ (MinLength 3).Validate 0 ['α', 'β', 'γ'] = none
      ∧ ((MaxLength 2).Validate 0 ['α', 'β', 'γ']).isSome) := by
  refine ⟨rfl, by decide, ?_⟩
  exact (length_measured_in_code_points 3 ['α', 'β', 'γ'] 0).2.2 rfl (by decide)

/-- Claim C5: `Length(min, max)` is inclusive on both ends - it fails iff
the code-point length is outside the closed interval; `Length(2, 4)` accepts
lengths 2, 3, 4 and rejects 1 and 5, and its violation carries the value and
both thresholds. -/
theorem length_range_inclusive (mn mx : Int) (s : GoStr) (i : Nat) :
    (((Length mn mx).Validate i s).isSome ↔
      ((s.length : Int) < mn ∨ mx < (s.length : Int)))
    ∧ (∀ e, (Length mn mx).Validate i s = some e →
        e.Value = s ∧ e.Min = mn ∧ e.Max = mx)
    ∧ (s.length = 2 ∨ s.length = 3 ∨ s.length = 4 →
        (Length 2 4).Validate i s = none)
    ∧ (s.length = 1 ∨ s.length = 5 →
        ((Length 2 4).Validate i s).isSome) := by
  refine ⟨?_, ?_, ?_, ?_⟩
  · by_cases hc : (s.length : Int) < mn ∨ mx < (s.length : Int)
    · simp [LengthValidator.Validate, Length, hc]
    · simp [LengthValidator.Validate, Length, hc]
  · intro e he
    by_cases hc : (s.length : Int) < mn ∨ mx < (s.length : Int)
    · simp only [LengthValidator.Validate, Length, if_pos hc, Option.some.injEq] at he
      rw [← he]
      exact ⟨rfl, rfl, rfl⟩
    · simp [LengthValidator.Validate, Length, hc] at he
  · rintro (h | h | h) <;> norm_num [LengthValidator.Validate, Length, h]
  · rintro (h | h) <;> norm_num [LengthValidator.Validate, Length, h]

/-- Witness for claim C5: `Length(2, 4)` rejects a length-1 string with a
violation carrying the value and both thresholds, and accepts a length-2
string. -/
theorem length_range_inclusive_witness :
    ((['a'] : GoStr).length = 1 ∨ (['a'] : GoStr).length = 5)
    ∧ ((Length 2 4).Validate 0 ['a']).isSome
    ∧ (Length 2 4).Validate 0 ['a', 'b'] = none
    ∧ ((⟨['a'], 2, 4, 0⟩ : LengthViolationError).Value = ['a']
      ∧ (⟨['a'], 2, 4, 0⟩ : LengthViolationError).Min = 2
      ∧ (⟨['a'], 2, 4, 0⟩ : LengthViolationError).Max = 4) := by
  refine ⟨Or.inl rfl, ?_, ?_, ?_⟩
  · exact (length_range_inclusive 2 4 ['a'] 0).2.2.2 (Or.inl rfl)
  · exact (length_range_inclusive 2 4 ['a', 'b'] 0).2.2.1 (Or.inl rfl)
  · exact (length_range_inclusive 2 4 ['a'] 0).2.1 ⟨['a'], 2, 4, 0⟩ rfl

/-- Claim C8: with no custom printer attached, each violation of the length
family renders through its built-in default printer's fixed English template
with the thresholds substituted. -/
theorem default_printer_templates :
    (∀ (h : MinHeap) (e : MinLengthViolationError),
      (h.getD e.rule (MinLength 0)).p = none →
      e.Error h = "the length must be no less than " ++ toString e.Min)
    ∧ (∀ (h : MaxHeap) (e : MaxLengthViolationError),
      (h.getD e.rule (MaxLength 0)).p = none →
      e.Error h = "the length must be no greater than " ++ toString e.Max)
    ∧ (∀ (h : LenHeap) (e : LengthViolationError),
      (h.getD e.rule (Length 0 0)).p = none →
      e.Error h = "the length must be in range(" ++ toString e.Min
        ++ " ... " ++ toString e.Max ++ ")") := by
  refine ⟨?_, ?_, ?_⟩
  · intro h e hp
    simp only [MinLengthViolationError.Error, hp, minLengthViolationPrinter.Print]
  · intro h e hp
    simp only [MaxLengthViolationError.Error, hp, maxLengthViolationPrinter.Print]
  · intro h e hp
    simp only [LengthViolationError.Error, hp, lengthViolationPrinter.Print]

/-- Witness for claim C8: concrete printer-less validators render the three
default templates. -/
theorem default_printer_templates_witness :
    (([MinLength 3] : MinHeap).getD 0 (MinLength 0)).p = none
    ∧ (⟨[], 3, 0⟩ : MinLengthViolationError).Error [MinLength 3]
        = "the length must be no less than " ++ toString (3 : Int)
    ∧ (⟨[], 5, 0⟩ : MaxLengthViolationError).Error [MaxLength 5]
        = "the length must be no greater than " ++ toString (5 : Int)
    ∧ (⟨[], 2, 4, 0⟩ : LengthViolationError).Error [Length 2 4]
        = "the length must be in range(" ++ toString (2 : Int)
          ++ " ... " ++ toString (4 : Int) ++ ")" := by
  refine ⟨rfl, ?_, ?_, ?_⟩
  · exact default_printer_templates.1 [MinLength 3] ⟨[], 3, 0⟩ rfl
  · exact default_printer_templates.2.1 [MaxLength 5] ⟨[], 5, 0⟩ rfl
  · exact default_printer_templates.2.2 [Length 2 4] ⟨[], 2, 4, 0⟩ rfl

/-- Claim C6: `WithPrinter` and `WithPrinterFunc` on the length-family
validators are copy-on-configure: each returns a freshly allocated validator
instance that carries the custom printer (and the receiver's thresholds),
mutates neither the receiver nor any other previously created instance, and
so every violation rendered through a previously created instance keeps its
previous printer. -/
theorem withPrinter_copy_on_configure :
    (∀ (h : MinHeap) (i : Nat) (pr : MinLengthViolationError → String)
        (fn : Int → String), i < h.length →
      (MinLengthValidator.WithPrinter h i pr).2 = h.length
      ∧ (MinLengthValidator.WithPrinter h i pr).2 ≠ i
      ∧ ((MinLengthValidator.WithPrinter h i pr).1.getD h.length (MinLength 0)).p
          = some pr
      ∧ ((MinLengthValidator.WithPrinter h i pr).1.getD h.length (MinLength 0)).min
          = (h.getD i (MinLength 0)).min
      ∧ (∀ k, k < h.length →
          (MinLengthValidator.WithPrinter h i pr).1.getD k (MinLength 0)
            = h.getD k (MinLength 0))
      ∧ (∀ e : MinLengthViolationError, e.rule < h.length →
          e.Error (MinLengthValidator.WithPrinter h i pr).1 = e.Error h)
      ∧ (MinLengthValidator.WithPrinterFunc h i fn).2 = h.length
      ∧ ((MinLengthValidator.WithPrinterFunc h i fn).1.getD h.length (MinLength 0)).p
          = some (fun e => fn e.Min)
      ∧ (∀ k, k < h.length →
          (MinLengthValidator.WithPrinterFunc h i fn).1.getD k (MinLength 0)
            = h.getD k (MinLength 0))
      ∧ (∀ e : MinLengthViolationError, e.rule < h.length →
          e.Error (MinLengthValidator.WithPrinterFunc h i fn).1 = e.Error h))
    ∧ (∀ (h : MaxHeap) (i : Nat) (pr : MaxLengthViolationError → String)
        (fn : Int → String), i < h.length →
      (MaxLengthValidator.WithPrinter h i pr).2 = h.length
      ∧ (MaxLengthValidator.WithPrinter h i pr).2 ≠ i
      ∧ ((MaxLengthValidator.WithPrinter h i pr).1.getD h.length (MaxLength 0)).p
          = some pr
      ∧ ((MaxLengthValidator.WithPrinter h i pr).1.getD h.length (MaxLength 0)).max
          = (h.getD i (MaxLength 0)).max
      ∧ (∀ k, k < h.length →
          (MaxLengthValidator.WithPrinter h i pr).1.getD k (MaxLength 0)
            = h.getD k (MaxLength 0))
      ∧ (∀ e : MaxLengthViolationError, e.rule < h.length →
          e.Error (MaxLengthValidator.WithPrinter h i pr).1 = e.Error h)
      ∧ (MaxLengthValidator.WithPrinterFunc h i fn).2 = h.length
      ∧ ((MaxLengthValidator.WithPrinterFunc h i fn).1.getD h.length (MaxLength 0)).p
          = some (fun e => fn e.Max)
      ∧ (∀ k, k < h.length →
          (MaxLengthValidator.WithPrinterFunc h i fn).1.getD k (MaxLength 0)
            = h.getD k (MaxLength 0))
      ∧ (∀ e : MaxLengthViolationError, e.rule < h.length →
          e.Error (MaxLengthValidator.WithPrinterFunc h i fn).1 = e.Error h))
    ∧ (∀ (h : LenHeap) (i : Nat) (pr : LengthViolationError → String)
        (fn : Int → Int → String), i < h.length →
      (LengthValidator.WithPrinter h i pr).2 = h.length
      ∧ (LengthValidator.WithPrinter h i pr).2 ≠ i
      ∧ ((LengthValidator.WithPrinter h i pr).1.getD h.length (Length 0 0)).p
          = some pr
      ∧ ((LengthValidator.WithPrinter h i pr).1.getD h.length (Length 0 0)).min
          = (h.getD i (Length 0 0)).min
      ∧ ((LengthValidator.WithPrinter h i pr).1.getD h.length (Length 0 0)).max
          = (h.getD i (Length 0 0)).max
      ∧ (∀ k, k < h.length →
          (LengthValidator.WithPrinter h i pr).1.getD k (Length 0 0)
            = h.getD k (Length 0 0))
      ∧ (∀ e : LengthViolationError, e.rule < h.length →
          e.Error (LengthValidator.WithPrinter h i pr).1 = e.Error h)
      ∧ (LengthValidator.WithPrinterFunc h i fn).2 = h.length
      ∧ ((LengthValidator.WithPrinterFunc h i fn).1.getD h.length (Length 0 0)).p
          = some (fun e => fn e.Min e.Max)
      ∧ (∀ k, k < h.length →
          (LengthValidator.WithPrinterFunc h i fn).1.getD k (Length 0 0)
            = h.getD k (Length 0 0))
      ∧ (∀ e : LengthViolationError, e.rule < h.length →
          e.Error (LengthValidator.WithPrinterFunc h i fn).1 = e.Error h)) := by
  refine ⟨?_, ?_, ?_⟩
  · intro h i pr fn hi
    refine ⟨rfl, ?_, ?_, ?_, ?_, ?_, rfl, ?_, ?_, ?_⟩
    · simp only [MinLengthValidator.WithPrinter]
      omega
    · simp only [MinLengthValidator.WithPrinter]
      rw [getD_snoc_self]
    · simp only [MinLengthValidator.WithPrinter]
      rw [getD_snoc_self]
    · intro k hk
      simp only [MinLengthValidator.WithPrinter]
      exact getD_snoc_lt h _ _ k hk
    · intro e he
      simp only [MinLengthValidator.WithPrinter, MinLengthViolationError.Error]
      rw [getD_snoc_lt h _ _ e.rule he]
    · simp only [MinLengthValidator.WithPrinterFunc]
      rw [getD_snoc_self]
    · intro k hk
      simp only [MinLengthValidator.WithPrinterFunc]
      exact getD_snoc_lt h _ _ k hk
    · intro e he
      simp only [MinLengthValidator.WithPrinterFunc, MinLengthViolationError.Error]
      rw [getD_snoc_lt h _ _ e.rule he]
  · intro h i pr fn hi
    refine ⟨rfl, ?_, ?_, ?_, ?_, ?_, rfl, ?_, ?_, ?_⟩
    · simp only [MaxLengthValidator.WithPrinter]
      omega
    · simp only [MaxLengthValidator.WithPrinter]
      rw [getD_snoc_self]
    · simp only [MaxLengthValidator.WithPrinter]
      rw [getD_snoc_self]
    · intro k hk
      simp only [MaxLengthValidator.WithPrinter]
      exact getD_snoc_lt h _ _ k hk
    · intro e he
      simp only [MaxLengthValidator.WithPrinter, MaxLengthViolationError.Error]
      rw [getD_snoc_lt h _ _ e.rule he]
    · simp only [MaxLengthValidator.WithPrinterFunc]
      rw [getD_snoc_self]
    · intro k hk
      simp only [MaxLengthValidator.WithPrinterFunc]
      exact getD_snoc_lt h _ _ k hk
    · intro e he
      simp only [MaxLengthValidator.WithPrinterFunc, MaxLengthViolationError.Error]
      rw [getD_snoc_lt h _ _ e.rule he]
  · intro h i pr fn hi
    refine ⟨rfl, ?_, ?_, ?_, ?_, ?_, ?_, rfl, ?_, ?_, ?_⟩
    · simp only [LengthValidator.WithPrinter]
      omega
    · simp only [LengthValidator.WithPrinter]
      rw [getD_snoc_self]
    · simp only [LengthValidator.WithPrinter]
      rw [getD_snoc_self]
    · simp only [LengthValidator.WithPrinter]
      rw [getD_snoc_self]
    · intro k hk
      simp only [LengthValidator.WithPrinter]
      exact getD_snoc_lt h _ _ k hk
    · intro e he
      simp only [LengthValidator.WithPrinter, LengthViolationError.Error]
      rw [getD_snoc_lt h _ _ e.rule he]
    · simp only [LengthValidator.WithPrinterFunc]
      rw [getD_snoc_self]
    · intro k hk
      simp only [LengthValidator.WithPrinterFunc]
      exact getD_snoc_lt h _ _ k hk
    · intro e he
      simp only [LengthValidator.WithPrinterFunc, LengthViolationError.Error]
      rw [getD_snoc_lt h _ _ e.rule he]

/-- Witness for claim C6: configuring a printer on singleton heaps allocates
a fresh instance carrying it, and a violation produced by the original
instance renders the same text before and after. -/
theorem withPrinter_copy_on_configure_witness :
    (0 : Nat) < ([MinLength 3] : MinHeap).length
    ∧ (0 : Nat) < ([MaxLength 5] : MaxHeap).length
    ∧ (0 : Nat) < ([Length 2 4] : LenHeap).length
    ∧ ((MinLengthValidator.WithPrinter [MinLength 3] 0 (fun _ => "custom")).2
        = ([MinLength 3] : MinHeap).length
      ∧ ((MinLengthValidator.WithPrinter [MinLength 3] 0 (fun _ => "custom")).1.getD
          ([MinLength 3] : MinHeap).length (MinLength 0)).p = some (fun _ => "custom")
      ∧ (⟨[], 3, 0⟩ : MinLengthViolationError).Error
          (MinLengthValidator.WithPrinter [MinLength 3] 0 (fun _ => "custom")).1
        = (⟨[], 3, 0⟩ : MinLengthViolationError).Error [MinLength 3])
    ∧ ((MaxLengthValidator.WithPrinter [MaxLength 5] 0 (fun _ => "custom")).2
        = ([MaxLength 5] : MaxHeap).length
      ∧ (⟨[], 5, 0⟩ : MaxLengthViolationError).Error
          (MaxLengthValidator.WithPrinter [MaxLength 5] 0 (fun _ => "custom")).1
        = (⟨[], 5, 0⟩ : MaxLengthViolationError).Error [MaxLength 5])
    ∧ ((LengthValidator.WithPrinterFunc [Length 2 4] 0 (fun _ _ => "custom")).2
        = ([Length 2 4] : LenHeap).length
      ∧ (⟨[], 2, 4, 0⟩ : LengthViolationError).Error
          (LengthValidator.WithPrinterFunc [Length 2 4] 0 (fun _ _ => "custom")).1
        = (⟨[], 2, 4, 0⟩ : LengthViolationError).Error [Length 2 4]) := by
  have hmin := withPrinter_copy_on_configure.1 [MinLength 3] 0
    (fun _ => "custom") (fun _ => "f") (by decide)
  have hmax := withPrinter_copy_on_configure.2.1 [MaxLength 5] 0
    (fun _ => "custom") (fun _ => "f") (by decide)
  have hlen := withPrinter_copy_on_configure.2.2 [Length 2 4] 0
    (fun _ => "custom") (fun _ _ => "custom") (by decide)
  refine ⟨by decide, by decide, by decide, ?_, ?_, ?_⟩
  · exact ⟨hmin.1, hmin.2.2.1, hmin.2.2.2.2.2.1 ⟨[], 3, 0⟩ (by decide)⟩
  · exact ⟨hmax.1, hmax.2.2.2.2.2.1 ⟨[], 5, 0⟩ (by decide)⟩
  · exact ⟨hlen.2.2.2.2.2.2.2.1, hlen.2.2.2.2.2.2.2.2.2.2 ⟨[], 2, 4, 0⟩ (by decide)⟩

end Validator
